import Mathlib

/-!
# Verification of `IDS.py` (EmailEventModelerIDS)

A shallow embedding of the single source file `src/IDS.py`: the two config
parsers (`read_events`, `read_statistics`), the event sampler
(`generate_events`) and the baseline aggregator (`analyze_stats`), together
with theorems settling the specification claims.

Modelling conventions:
* Python floats are modelled as exact rationals (`ℚ`); the normal draws of
  `random.gauss` are an oracle parameter `draw`.
* Python's `round(x, 2)` (round-half-to-even) is `round2`; `int(x)`
  (truncation toward zero) is `pyInt`; `float("inf")` appearing as the
  default `max` bound is the `Mx.inf` constructor.
* Python dicts are association lists in insertion order (`dictInsert`
  overwrites in place, appends new keys at the end).
* The `logs` storage directory is `Storage = Option (List (String × Rec))`:
  `none` means the directory does not exist (`os.listdir` raises), `some
  entries` is its contents.
* Raised exceptions are `none` results of `Option`-valued functions.
-/

namespace IDS

/-- Python `round(q, 2)`: the integer nearest to `100*q`, ties to even.
Helper: round-half-to-even of a rational to an integer. -/
def rhe (q : ℚ) : ℤ :=
  let f := ⌊q⌋
  let r := q - (f : ℚ)
  if r < 1/2 then f
  else if 1/2 < r then f + 1
  else if Even f then f else f + 1

/-- Python `round(q, 2)` from `IDS.py` lines 110 and 159-160. -/
def round2 (q : ℚ) : ℚ := (rhe (100 * q) : ℚ) / 100

/-- Python `int(q)` on a (finite) float: truncation toward zero
(lines 112 of `IDS.py`). -/
def pyInt (q : ℚ) : ℤ := if 0 ≤ q then ⌊q⌋ else ⌈q⌉

/-- The value stored in an event definition's `max` field: either a finite
float or `float("inf")` (the default for an empty max field, line 46). -/
inductive Mx where
  | fin (q : ℚ)
  | inf
deriving DecidableEq

/-- Python `min(q, m)` where `m` may be `float("inf")` (line 109). -/
def minQM (q : ℚ) : Mx → ℚ
  | Mx.fin m => min q m
  | Mx.inf => q

/-- Python `int(m)` where `m` may be `float("inf")`: `int(float("inf"))`
raises `OverflowError`, modelled as `none` (line 112). -/
def intMx : Mx → Option ℤ
  | Mx.fin m => some (pyInt m)
  | Mx.inf => none

/-! ## String utilities (Python `str.strip`, `str.split(":")`, numerals) -/

/-- Python `str.strip()`: drop leading and trailing whitespace. -/
def pyStrip (s : String) : String :=
  ⟨((s.data.dropWhile Char.isWhitespace).reverse.dropWhile
      Char.isWhitespace).reverse⟩

/-- Helper for `splitColon`. -/
def splitColonAux : List Char → List Char → List (List Char)
  | [], cur => [cur.reverse]
  | c :: rest, cur =>
      if c = ':' then cur.reverse :: splitColonAux rest []
      else splitColonAux rest (c :: cur)

/-- Python `s.split(":")` (lines 37 and 72): `""` yields `[""]`,
`"a:"` yields `["a", ""]`. -/
def splitColon (s : String) : List String :=
  (splitColonAux s.data []).map fun l => ⟨l⟩

/-- Value of a list of decimal digit characters. -/
def digitsVal (l : List Char) : ℕ :=
  l.foldl (fun a c => 10 * a + (c.toNat - 48)) 0

/-- All characters are decimal digits (and the list is nonempty). -/
def allDigits (l : List Char) : Bool :=
  !l.isEmpty && l.all Char.isDigit

/-- Python `int(s)` on a string: optional sign, decimal digits, surrounding
whitespace tolerated; anything else raises `ValueError` (`none`). -/
def parseInt (s : String) : Option ℤ :=
  match (pyStrip s).data with
  | '+' :: rest => if allDigits rest then some (digitsVal rest : ℤ) else none
  | '-' :: rest => if allDigits rest then some (-(digitsVal rest : ℤ)) else none
  | l => if allDigits l then some (digitsVal l : ℤ) else none

/-- Unsigned decimal numeral with optional fractional part:
`"10"`, `"1.5"`, `".5"`, `"2."`. -/
def parseUFloat (l : List Char) : Option ℚ :=
  let intPart := l.takeWhile fun c => c ≠ '.'
  let rest := l.dropWhile fun c => c ≠ '.'
  match rest with
  | [] =>
      if allDigits intPart then some ((digitsVal intPart : ℤ) : ℚ) else none
  | '.' :: frac =>
      if (intPart.all Char.isDigit) && (frac.all Char.isDigit)
          && !(intPart.isEmpty && frac.isEmpty) then
        some ((digitsVal intPart : ℚ)
          + (digitsVal frac : ℚ) / ((10 : ℚ) ^ frac.length))
      else none
  | _ => none

/-- Python `float(s)` on a string holding a plain decimal numeral (the only
shape the config files use): optional sign, digits, optional fractional
part, surrounding whitespace tolerated; anything else raises (`none`). -/
def parseFloat (s : String) : Option ℚ :=
  match (pyStrip s).data with
  | '+' :: rest => parseUFloat rest
  | '-' :: rest => (parseUFloat rest).map Neg.neg
  | l => parseUFloat l

/-! ## Association-list model of Python dicts -/

/-- Lookup in an insertion-ordered dict. -/
def lookupS {α : Type} : List (String × α) → String → Option α
  | [], _ => none
  | (k, w) :: rest, n => if k = n then some w else lookupS rest n

/-- Python `d[name] = value`: overwrite in place if the key is present,
append at the end otherwise. -/
def dictInsert {α : Type} : List (String × α) → String → α → List (String × α)
  | [], n, v => [(n, v)]
  | (k, w) :: rest, n, v =>
      if k = n then (k, v) :: rest else (k, w) :: dictInsert rest n v

/-! ## Config loader (`read_events` lines 17-48, `read_statistics` 52-81) -/

/-- One parsed record of `Events.txt` (lines 43-48 of `IDS.py`):
`type` is the raw single-character tag (`"C"` = continuous, anything else
discrete), `min` defaults to `0`, `max` defaults to `+inf`. -/
structure EventDef where
  type : String
  min : ℚ
  max : Mx
  weight : ℤ
deriving DecidableEq

/-- One parsed record of `Stats.txt` (lines 78-81 of `IDS.py`). -/
structure EventStats where
  mean : ℚ
  std_dev : ℚ
deriving DecidableEq

/-- Python slice `lines[1:b]` with its negative-index convention. -/
def pySlice1 (l : List String) (b : ℤ) : List String :=
  let n : ℤ := l.length
  let e := if b < 0 then n + b else b
  (l.take (max e 0).toNat).drop 1

/-- Diagnostic printed for a malformed `Events.txt` line (line 39). -/
def evMsg (line : String) : String :=
  "Skipping invalid line in Events.txt: " ++ pyStrip line

/-- Diagnostic printed for a malformed `Stats.txt` line (line 74). -/
def stMsg (line : String) : String :=
  "Skipping invalid line in Stats.txt: " ++ pyStrip line

/-- Loop body of `read_events` (lines 36-48): state is the `events` map and
the list of printed diagnostics; `none` models an uncaught exception from
`float(...)`/`int(...)`. -/
def processEventLine (st : List (String × EventDef) × List String)
    (line : String) : Option (List (String × EventDef) × List String) :=
  let parts := splitColon (pyStrip line)
  if parts.length = 5 then
    let name := parts.getD 0 ""
    let ty := parts.getD 1 ""
    let mnS := parts.getD 2 ""
    let mxS := parts.getD 3 ""
    let wS := parts.getD 4 ""
    match (if mnS = "" then some 0 else parseFloat mnS),
        (if mxS = "" then some Mx.inf else (parseFloat mxS).map Mx.fin),
        parseInt wS with
    | some mn, some mx, some w =>
        some (dictInsert st.1 name ⟨ty, mn, mx, w⟩, st.2)
    | _, _, _ => none
  else
    some (st.1, st.2 ++ [evMsg line])

/-- Fold `processEventLine` over the selected record lines. -/
def readEventLines (st : List (String × EventDef) × List String) :
    List String → Option (List (String × EventDef) × List String)
  | [] => some st
  | l :: ls =>
      match processEventLine st l with
      | none => none
      | some st' => readEventLines st' ls

/-- `read_events` (lines 17-48): takes the current global `events` map and
the file's lines, returns the updated map and the printed diagnostics, or
`none` for a fatal error (empty file, malformed count line, non-numeric
field). -/
def read_events (ev : List (String × EventDef)) (lines : List String) :
    Option (List (String × EventDef) × List String) :=
  match lines with
  | [] => none
  | first :: _ =>
      match parseInt (pyStrip first) with
      | none => none
      | some n => readEventLines (ev, []) (pySlice1 lines (n + 1))

/-- Loop body of `read_statistics` (lines 71-81). -/
def processStatLine (st : List (String × EventStats) × List String)
    (line : String) : Option (List (String × EventStats) × List String) :=
  let parts := splitColon (pyStrip line)
  if parts.length = 4 then
    let name := parts.getD 0 ""
    let meanS := parts.getD 1 ""
    let sdS := parts.getD 2 ""
    match parseFloat meanS, parseFloat sdS with
    | some m, some sd => some (dictInsert st.1 name ⟨m, sd⟩, st.2)
    | _, _ => none
  else
    some (st.1, st.2 ++ [stMsg line])

/-- Fold `processStatLine` over the selected record lines. -/
def readStatLines (st : List (String × EventStats) × List String) :
    List String → Option (List (String × EventStats) × List String)
  | [] => some st
  | l :: ls =>
      match processStatLine st l with
      | none => none
      | some st' => readStatLines st' ls

/-- `read_statistics` (lines 52-81), analogous to `read_events`. -/
def read_statistics (sm : List (String × EventStats)) (lines : List String) :
    Option (List (String × EventStats) × List String) :=
  match lines with
  | [] => none
  | first :: _ =>
      match parseInt (pyStrip first) with
      | none => none
      | some n => readStatLines (sm, []) (pySlice1 lines (n + 1))

/-! ## Event sampler (`generate_events`, lines 85-122) -/

/-- A persisted daily record: the JSON object written to `day_<n>.log`,
as an insertion-ordered map from field name to numeric value. -/
abbrev Rec : Type := List (String × ℚ)

/-- The `logs` directory: `none` if it does not exist, otherwise its
files (name to parsed content). -/
abbrev Storage : Type := Option (List (String × Rec))

/-- The discrete branch of the sampler (line 112):
`max(int(min), min(int(gauss_draw), int(max)))`; `none` when `int` is
applied to an infinite bound. -/
def discreteSample (mn : ℚ) (mx : Mx) (draw : ℚ) : Option ℤ :=
  match intMx mx with
  | none => none
  | some m => some (max (pyInt mn) (min (pyInt draw) m))

/-- Sampling one event (lines 108-112): `draw` is the raw
`random.gauss(mean, std_dev)` sample. -/
def sampleEvent (d : EventDef) (draw : ℚ) : Option ℚ :=
  if d.type = "C" then
    some (round2 (max d.min (minQM draw d.max)))
  else
    (discreteSample d.min d.max draw).map fun z => (z : ℚ)

/-- Inner loop of one day (lines 104-114): fold over the `events` dict,
sampling each event that also appears in `statistics`, accumulating into
the daily record. -/
def genDayGo (stats : List (String × EventStats)) (draw : String → ℚ) :
    List (String × EventDef) → Rec → Option Rec
  | [], acc => some acc
  | (n, d) :: rest, acc =>
      match lookupS stats n with
      | none => genDayGo stats draw rest acc
      | some _ =>
          match sampleEvent d (draw n) with
          | none => none
          | some v => genDayGo stats draw rest (dictInsert acc n v)

/-- One day's record (lines 102-114): starts as `{"Day": day + 1}`. -/
def genDay (evs : List (String × EventDef))
    (stats : List (String × EventStats)) (dayIdx : ℕ) (draw : String → ℚ) :
    Option Rec :=
  genDayGo stats draw evs [("Day", ((dayIdx + 1 : ℕ) : ℚ))]

/-- The log-file name for day `n` (line 101): `day_<n>.log`.
Decimal numeral helper with fuel. -/
def natToStrAux : ℕ → ℕ → List Char
  | 0, _ => []
  | fuel + 1, n =>
      if n = 0 then []
      else natToStrAux fuel (n / 10) ++ [Char.ofNat (48 + n % 10)]

/-- Decimal numeral of a natural number. -/
def natToStr (n : ℕ) : String :=
  if n = 0 then "0" else ⟨natToStrAux n n⟩

/-- `os.path.join(LOG_DIR, f"day_{day + 1}.log")` without the directory
part (line 101). -/
def logName (n : ℕ) : String := "day_" ++ natToStr n ++ ".log"

/-- The loop over days (lines 100-120): for each day index in order,
build the record, write it, and append it to the returned list. Returns
the records and the performed writes; `none` propagates a sampling
exception. -/
def genDays (evs : List (String × EventDef))
    (stats : List (String × EventStats)) (draw : ℕ → String → ℚ) :
    List ℕ → Option (List Rec × List (String × Rec))
  | [] => some ([], [])
  | d :: ds =>
      match genDay evs stats d (draw d) with
      | none => none
      | some r =>
          match genDays evs stats draw ds with
          | none => none
          | some (rs, ws) => some (r :: rs, (logName (d + 1), r) :: ws)

/-- `generate_events` (lines 85-122): ensures the log directory exists
(lines 95-96, `os.makedirs`), loops over `range(days)`, writes one file
per day, and returns the list of daily records, the writes performed, and
the resulting storage state. -/
def generate_events (evs : List (String × EventDef))
    (stats : List (String × EventStats)) (days : ℕ)
    (draw : ℕ → String → ℚ) (fs : Storage) :
    Option (List Rec × List (String × Rec) × Storage) :=
  let entries0 := fs.getD []
  match genDays evs stats draw (List.range days) with
  | none => none
  | some (rs, ws) =>
      some (rs, ws, some (ws.foldl (fun e w => dictInsert e w.1 w.2) entries0))

/-! ## Baseline aggregator (`analyze_stats`, lines 126-163) -/

/-- A reported baseline entry (lines 157-161). The reported `std_dev` is
`round(math.sqrt(variance), 2)`; since the square root is irrational in
general it is kept here as the exact `variance`, with the reported value
recovered by `Baseline.std_dev` below. -/
structure Baseline where
  total : ℚ
  mean : ℚ
  variance : ℚ
deriving DecidableEq

/-- The statistics computed for one event's accumulated values
(lines 153-156): `mean = sum/len`, population variance, `total = sum`;
`mean` reported rounded to 2 decimal places. -/
def statsOf (vs : List ℚ) : Baseline :=
  let mean := vs.sum / (vs.length : ℚ)
  let variance := (vs.map fun x => (x - mean) ^ 2).sum / (vs.length : ℚ)
  ⟨vs.sum, round2 mean, variance⟩

/-- `startswith("day_") and endswith(".log")` (line 134). -/
def isDayFile (f : String) : Bool :=
  "day_".data.isPrefixOf f.data && ".log".data.reverse.isPrefixOf f.data.reverse

/-- Lexicographic comparison of strings by code point, the order used by
Python's `list.sort()` on `str` (line 135). -/
def lexLe : List Char → List Char → Bool
  | [], _ => true
  | _ :: _, [] => false
  | a :: as, b :: bs =>
      if a.val < b.val then true
      else if b.val < a.val then false
      else lexLe as bs

/-- `strLe a b` is `a <= b` in Python string order. -/
def strLe (a b : String) : Bool := lexLe a.data b.data

/-- Insert into a `strLe`-sorted list. -/
def insertSorted (x : String) : List String → List String
  | [] => [x]
  | y :: ys => if strLe x y then x :: y :: ys else y :: insertSorted x ys

/-- `log_files.sort()` (line 135): sort in Python string order. -/
def sortFiles : List String → List String
  | [] => []
  | x :: xs => insertSorted x (sortFiles xs)

/-- The order in which `analyze_stats` reads the discovered log files
(lines 134-135): filter the directory listing by the day-file naming
convention, then sort as strings. -/
def processOrder (files : List String) : List String :=
  sortFiles (files.filter fun f => isDayFile f)

/-- One record's contribution (lines 142-144): append each value to its
event's list if the event name is a key of `daily_totals`; other names
(including `"Day"` unless an event is so named) are ignored. -/
def appendVal : List (String × List ℚ) → String → ℚ → List (String × List ℚ)
  | [], _, _ => []
  | (n, vs) :: rest, name, v =>
      if n = name then (n, vs ++ [v]) :: rest
      else (n, vs) :: appendVal rest name v

/-- Fold a whole record into the totals (lines 142-144). -/
def collectRec (totals : List (String × List ℚ)) (r : Rec) :
    List (String × List ℚ) :=
  r.foldl (fun t p => appendVal t p.1 p.2) totals

/-- Reading one discovered file (lines 137-148): look its parsed record
up in the storage and fold it into the totals. -/
def collectFile (entries : List (String × Rec))
    (t : List (String × List ℚ)) (f : String) : List (String × List ℚ) :=
  match lookupS entries f with
  | some r => collectRec t r
  | none => t

/-- `daily_totals` after the reading loop (lines 133-148): initialised
with one empty list per key of the in-memory `events` map, then filled
from each discovered file in processing order. -/
def dailyTotals (evs : List (String × EventDef))
    (entries : List (String × Rec)) : List (String × List ℚ) :=
  (processOrder (entries.map Prod.fst)).foldl (collectFile entries)
    (evs.map fun p => (p.1, ([] : List ℚ)))

/-- Lines 150-162: report statistics for every event that accumulated at
least one value, in `daily_totals` (= `events`) key order. -/
def mkBaseline (totals : List (String × List ℚ)) :
    List (String × Baseline) :=
  totals.filterMap fun p =>
    if p.2.isEmpty then none else some (p.1, statsOf p.2)

/-- `analyze_stats` (lines 126-163). The `events` map of the current run
is an input because line 133 reads the module-global `events`; the
directory listing (`os.listdir(LOG_DIR)`, line 134) raises if the log
directory does not exist (`none`). -/
def analyze_stats (evs : List (String × EventDef)) (fs : Storage) :
    Option (List (String × Baseline)) :=
  match fs with
  | none => none
  | some entries => some (mkBaseline (dailyTotals evs entries))

/-- Round-half-to-even of a real, as in `round2`. -/
noncomputable def rheR (x : ℝ) : ℤ :=
  if x - (⌊x⌋ : ℝ) < 1/2 then ⌊x⌋
  else if 1/2 < x - (⌊x⌋ : ℝ) then ⌊x⌋ + 1
  else if Even ⌊x⌋ then ⌊x⌋ else ⌊x⌋ + 1

/-- Python `round(x, 2)` on a real value. -/
noncomputable def round2R (x : ℝ) : ℝ := (rheR (100 * x) : ℝ) / 100

/-- The `std_dev` value actually reported for a baseline entry
(lines 155 and 160): `round(math.sqrt(variance), 2)`. -/
noncomputable def Baseline.std_dev (b : Baseline) : ℝ :=
  round2R (Real.sqrt (b.variance : ℝ))

/-! ## Definitions taken from the specification's words, for comparison
with the code-derived definitions above -/

/-- Population variance as the spec states it:
`sum((x - mean)^2 for x in values) / count` with `mean = total / count`. -/
def specPopVariance (vs : List ℚ) : ℚ :=
  (vs.map fun x => (x - vs.sum / (vs.length : ℚ)) ^ 2).sum / (vs.length : ℚ)

/-- "Truncate toward zero to an integer", stated independently of `pyInt`:
truncating division of the numerator by the denominator. -/
def truncZ (q : ℚ) : ℤ := q.num.tdiv (q.den : ℤ)

/-- "Clamp `x` into `[lo, hi]`". -/
def clampZ (lo hi x : ℤ) : ℤ := max lo (min x hi)

/-- The discrete sampling rule exactly as claim C6 words it: truncate the
raw sample toward zero, then clamp into `[floor(min), floor(max)]` with the
bounds converted by `floor`. -/
def discreteFloorSpec (mn mx draw : ℚ) : ℤ :=
  clampZ ⌊mn⌋ ⌊mx⌋ (truncZ draw)

/-- Boolean sortedness of a file list under Python string order. -/
def isSortedB : List String → Bool
  | [] => true
  | [_] => true
  | x :: y :: r => strLe x y && isSortedB (y :: r)

/-! ## General lemmas about the embedded operations -/

/-- Round-half-to-even never moves a value by more than `1/2`. -/
theorem rhe_bounds (q : ℚ) : q - 1/2 ≤ (rhe q : ℚ) ∧ (rhe q : ℚ) ≤ q + 1/2 := by
  have hfl : ((⌊q⌋ : ℤ) : ℚ) ≤ q := Int.floor_le q
  have hfu : q < ((⌊q⌋ : ℤ) : ℚ) + 1 := Int.lt_floor_add_one q
  unfold rhe
  by_cases h1 : q - ((⌊q⌋ : ℤ) : ℚ) < 1/2
  · simp only [h1, if_true]
    constructor <;> linarith
  · simp only [h1, if_false]
    by_cases h2 : (1:ℚ)/2 < q - ((⌊q⌋ : ℤ) : ℚ)
    · simp only [h2, if_true]
      constructor <;> push_cast <;> linarith
    · simp only [h2, if_false]
      by_cases h3 : Even ⌊q⌋ <;>
        simp only [h3, if_true, if_false] <;>
        constructor <;> push_cast <;> linarith

/-- `round(q, 2)` never moves a value by more than `1/200`. -/
theorem round2_bounds (q : ℚ) :
    q - 1/200 ≤ round2 q ∧ round2 q ≤ q + 1/200 := by
  obtain ⟨h1, h2⟩ := rhe_bounds (100 * q)
  unfold round2
  constructor <;> [linarith; linarith]

/-- Python `int()` is monotone. -/
theorem pyInt_mono {a b : ℚ} (h : a ≤ b) : pyInt a ≤ pyInt b := by
  unfold pyInt
  by_cases ha : 0 ≤ a
  · have hb : 0 ≤ b := le_trans ha h
    simp only [ha, hb, if_true]
    exact Int.floor_le_floor h
  · by_cases hb : 0 ≤ b
    · simp only [ha, hb, if_true, if_false]
      have h1 : ⌈a⌉ ≤ 0 := by
        rw [show (0:ℤ) = ⌈(0:ℚ)⌉ by simp]
        exact Int.ceil_le_ceil (le_of_lt (not_le.mp ha))
      have h2 : 0 ≤ ⌊b⌋ := by
        rw [show (0:ℤ) = ⌊(0:ℚ)⌋ by simp]
        exact Int.floor_le_floor hb
      omega
    · simp only [ha, hb, if_false]
      exact Int.ceil_le_ceil h

/-- `pyInt` is the truncating division of the spec's "truncate toward
zero": Python `int()` agrees with `truncZ`. -/
theorem pyInt_eq_truncZ (q : ℚ) : pyInt q = truncZ q := by
  unfold pyInt truncZ
  by_cases h : 0 ≤ q
  · simp only [h, if_true]
    rw [Rat.floor_def]
    have hnum : 0 ≤ q.num := Rat.num_nonneg.mpr h
    exact (Int.tdiv_eq_ediv hnum (by positivity)).symm
  · simp only [h, if_false]
    have hq : q < 0 := not_le.mp h
    have hnum : q.num < 0 := Rat.num_neg.mpr hq
    have h1 : ⌈q⌉ = -⌊-q⌋ := by
      rw [← Int.ceil_neg (a := -q), neg_neg]
    rw [h1, Rat.floor_def, Rat.neg_num, Rat.neg_den]
    have h2 : (-q.num).tdiv (q.den : ℤ) = -(q.num.tdiv (q.den : ℤ)) :=
      Int.neg_tdiv q.num (q.den : ℤ)
    have h3 : (-q.num).tdiv (q.den : ℤ) = (-q.num) / (q.den : ℤ) :=
      Int.tdiv_eq_ediv (by omega) (by positivity)
    omega

/-- `truncZ` agrees with `floor` on nonnegative rationals. -/
theorem truncZ_eq_floor_of_nonneg {q : ℚ} (h : 0 ≤ q) : truncZ q = ⌊q⌋ := by
  rw [← pyInt_eq_truncZ]
  unfold pyInt
  simp [h]

/-! ### Dict lemmas -/

/-- Looking up the just-written key gives the new value. -/
theorem lookupS_dictInsert_self {α : Type} (m : List (String × α))
    (n : String) (v : α) : lookupS (dictInsert m n v) n = some v := by
  induction m with
  | nil => simp [dictInsert, lookupS]
  | cons p rest ih =>
      obtain ⟨k, w⟩ := p
      by_cases h : k = n
      · simp [dictInsert, lookupS, h]
      · simp [dictInsert, lookupS, h, ih]

/-- Writing one key leaves every other key's value unchanged. -/
theorem lookupS_dictInsert_ne {α : Type} (m : List (String × α))
    (n : String) (v : α) (n' : String) (h : n' ≠ n) :
    lookupS (dictInsert m n v) n' = lookupS m n' := by
  induction m with
  | nil => simp [dictInsert, lookupS, Ne.symm h]
  | cons p rest ih =>
      obtain ⟨k, w⟩ := p
      by_cases hk : k = n
      · subst hk
        simp [dictInsert, lookupS, Ne.symm h]
      · by_cases hk' : k = n'
        · simp [dictInsert, lookupS, hk, hk', h]
        · simp [dictInsert, lookupS, hk, hk', ih]

/-- A key outside a map's key list looks up to `none`. -/
theorem lookupS_eq_none_of_not_mem {α : Type} (m : List (String × α))
    (n : String) (h : n ∉ m.map Prod.fst) : lookupS m n = none := by
  induction m with
  | nil => simp [lookupS]
  | cons p rest ih =>
      obtain ⟨k, w⟩ := p
      simp only [List.map_cons, List.mem_cons] at h
      push_neg at h
      simp [lookupS, Ne.symm h.1, ih h.2]

/-! ### Sorting lemmas -/

/-- Python string order is total. -/
theorem lexLe_total (a : List Char) :
    ∀ b, lexLe a b = true ∨ lexLe b a = true := by
  induction a with
  | nil => intro b; left; simp [lexLe]
  | cons c cs ih =>
      intro b
      cases b with
      | nil => right; simp [lexLe]
      | cons d ds =>
          by_cases h1 : c.val < d.val
          · left; simp [lexLe, h1]
          · by_cases h2 : d.val < c.val
            · right; simp [lexLe, h2]
            · rcases ih ds with h | h
              · left; simp [lexLe, h1, h2, h]
              · right; simp [lexLe, h1, h2, h]

/-- Totality of `strLe`. -/
theorem strLe_total (a b : String) : strLe a b = true ∨ strLe b a = true :=
  lexLe_total a.data b.data

/-- Inserting into a sorted list keeps it sorted. -/
theorem isSortedB_insertSorted (x : String) :
    ∀ l, isSortedB l = true → isSortedB (insertSorted x l) = true := by
  intro l
  induction l with
  | nil => intro _; simp [insertSorted, isSortedB]
  | cons y ys ih =>
      intro h
      by_cases hxy : strLe x y = true
      · simp [insertSorted, hxy, isSortedB, h]
      · have hyx : strLe y x = true := by
          rcases strLe_total x y with h' | h'
          · exact absurd h' hxy
          · exact h'
        cases ys with
        | nil => simp [insertSorted, hxy, isSortedB, hyx]
        | cons z zs =>
            have hyz : strLe y z = true := by
              simp only [isSortedB, Bool.and_eq_true] at h
              exact h.1
            have hzs : isSortedB (z :: zs) = true := by
              simp only [isSortedB, Bool.and_eq_true] at h
              exact h.2
            have hrec : isSortedB (insertSorted x (z :: zs)) = true :=
              ih hzs
            by_cases hxz : strLe x z = true
            · simp [insertSorted, hxy, hxz, isSortedB, hyx, hyz, hzs]
            · simp only [insertSorted, hxy, hxz, if_false] at hrec ⊢
              simp [isSortedB, hyz]
              exact hrec

/-- The result of `sortFiles` is sorted in Python string order. -/
theorem isSortedB_sortFiles (l : List String) :
    isSortedB (sortFiles l) = true := by
  induction l with
  | nil => simp [sortFiles, isSortedB]
  | cons x xs ih => exact isSortedB_insertSorted x (sortFiles xs) ih

/-- Insertion is a permutation. -/
theorem insertSorted_perm (x : String) (l : List String) :
    (insertSorted x l).Perm (x :: l) := by
  induction l with
  | nil => simp [insertSorted]
  | cons y ys ih =>
      by_cases hxy : strLe x y = true
      · simp [insertSorted, hxy]
      · simp only [insertSorted, hxy, if_false]
        exact (ih.cons y).trans (List.Perm.swap x y ys)

/-- `sortFiles` permutes its input. -/
theorem sortFiles_perm (l : List String) : (sortFiles l).Perm l := by
  induction l with
  | nil => simp [sortFiles]
  | cons x xs ih =>
      exact (insertSorted_perm x (sortFiles xs)).trans (ih.cons x)

/-! ### Aggregator lemmas -/

/-- `appendVal` never changes the key list. -/
theorem map_fst_appendVal (t : List (String × List ℚ)) (n : String) (v : ℚ) :
    (appendVal t n v).map Prod.fst = t.map Prod.fst := by
  induction t with
  | nil => simp [appendVal]
  | cons p rest ih =>
      obtain ⟨k, ws⟩ := p
      by_cases h : k = n <;> simp [appendVal, h, ih]

/-- Folding a record into the totals never changes the key list. -/
theorem map_fst_collectRec (r : Rec) :
    ∀ t, (collectRec t r).map Prod.fst = t.map Prod.fst := by
  induction r with
  | nil => intro t; simp [collectRec]
  | cons p ps ih =>
      intro t
      simp only [collectRec, List.foldl_cons] at ih ⊢
      rw [ih, map_fst_appendVal]

/-- Reading one file never changes the key list. -/
theorem map_fst_collectFile (entries : List (String × Rec))
    (t : List (String × List ℚ)) (f : String) :
    (collectFile entries t f).map Prod.fst = t.map Prod.fst := by
  unfold collectFile
  cases lookupS entries f with
  | none => rfl
  | some r => exact map_fst_collectRec r t

/-- The reading loop never changes the key list of the totals. -/
theorem map_fst_foldl_collectFile (entries : List (String × Rec)) :
    ∀ (files : List String) (t : List (String × List ℚ)),
      (files.foldl (collectFile entries) t).map Prod.fst = t.map Prod.fst := by
  intro files
  induction files with
  | nil => intro t; rfl
  | cons f fs ih =>
      intro t
      rw [List.foldl_cons, ih, map_fst_collectFile]

/-- The keys of `daily_totals` are exactly the keys of the in-memory
`events` map, in order. -/
theorem map_fst_dailyTotals (evs : List (String × EventDef))
    (entries : List (String × Rec)) :
    (dailyTotals evs entries).map Prod.fst = evs.map Prod.fst := by
  unfold dailyTotals
  rw [map_fst_foldl_collectFile, List.map_map]
  rfl

/-- A name outside the totals' key list has no baseline entry. -/
theorem lookupS_mkBaseline_none (totals : List (String × List ℚ))
    (name : String) (h : name ∉ totals.map Prod.fst) :
    lookupS (mkBaseline totals) name = none := by
  induction totals with
  | nil => simp [mkBaseline, lookupS]
  | cons p rest ih =>
      obtain ⟨n, ws⟩ := p
      simp only [List.map_cons, List.mem_cons] at h
      push_neg at h
      by_cases hw : ws.isEmpty
      · simp only [mkBaseline, List.filterMap_cons, hw, if_true]
        exact ih h.2
      · simp only [mkBaseline, List.filterMap_cons, hw, if_false]
        simp only [lookupS, Ne.symm h.1, if_false]
        exact ih h.2

/-- Looking a name up in the reported baseline: present with the
statistics of its accumulated values when at least one value accumulated,
absent otherwise. -/
theorem lookupS_mkBaseline (totals : List (String × List ℚ))
    (name : String) (vs : List ℚ)
    (hnd : (totals.map Prod.fst).Nodup)
    (h : lookupS totals name = some vs) :
    lookupS (mkBaseline totals) name
      = if vs.isEmpty then none else some (statsOf vs) := by
  induction totals with
  | nil => simp [lookupS] at h
  | cons p rest ih =>
      obtain ⟨n, ws⟩ := p
      simp only [List.map_cons, List.nodup_cons] at hnd
      simp only [lookupS] at h
      by_cases hn : n = name
      · rw [if_pos hn] at h
        injection h with h
        subst h
        subst hn
        by_cases hw : ws.isEmpty
        · simp only [mkBaseline, List.filterMap_cons, hw, if_true]
          exact lookupS_mkBaseline_none rest n hnd.1
        · simp only [mkBaseline, List.filterMap_cons, hw, if_false]
          simp [lookupS, hw]
      · rw [if_neg hn] at h
        by_cases hw : ws.isEmpty
        · simp only [mkBaseline, List.filterMap_cons, hw, if_true]
          exact ih hnd.2 h
        · simp only [mkBaseline, List.filterMap_cons, hw, if_false]
          simp only [lookupS, hn, if_false]
          exact ih hnd.2 h

/-- Aggregating when nothing accumulated yields the empty baseline
(every key mapped to the empty list is dropped). -/
theorem mkBaseline_all_empty (evs : List (String × EventDef)) :
    mkBaseline (evs.map fun p => (p.1, ([] : List ℚ))) = [] := by
  induction evs with
  | nil => rfl
  | cons p rest ih =>
      simp only [List.map_cons, mkBaseline, List.filterMap_cons,
        List.isEmpty_nil, if_true] at ih ⊢
      exact ih

/-- `daily_totals` (and hence the whole aggregation) depends on the
in-memory `events` map only through its key list. -/
theorem dailyTotals_congr_keys (e₁ e₂ : List (String × EventDef))
    (entries : List (String × Rec))
    (h : e₁.map Prod.fst = e₂.map Prod.fst) :
    dailyTotals e₁ entries = dailyTotals e₂ entries := by
  have init : ∀ e : List (String × EventDef),
      e.map (fun p => (p.1, ([] : List ℚ)))
        = (e.map Prod.fst).map (fun n => (n, ([] : List ℚ))) := by
    intro e
    rw [List.map_map]
    rfl
  unfold dailyTotals
  rw [init, init, h]

/-! ### Generator lemmas -/

/-- If some event in the sampling join is discrete with an infinite upper
bound, the whole day's sampling raises (`int(float("inf"))`). -/
theorem genDayGo_none (stats : List (String × EventStats))
    (draw : String → ℚ) (name : String) (d : EventDef) (s : EventStats)
    (hC : d.type ≠ "C") (hinf : d.max = Mx.inf)
    (hs : lookupS stats name = some s) :
    ∀ (evsL : List (String × EventDef)) (acc : Rec),
      (name, d) ∈ evsL → genDayGo stats draw evsL acc = none := by
  intro evsL
  induction evsL with
  | nil => intro acc hmem; simp at hmem
  | cons p rest ih =>
      intro acc hmem
      obtain ⟨n', d'⟩ := p
      rcases List.mem_cons.mp hmem with hhead | htail
      · injection hhead with h1 h2
        subst h1
        subst h2
        simp only [genDayGo, hs]
        have : sampleEvent d (draw name) = none := by
          simp [sampleEvent, hC, discreteSample, hinf, intMx]
        rw [this]
      · simp only [genDayGo]
        cases lookupS stats n' with
        | none => exact ih acc htail
        | some s' =>
            cases hse : sampleEvent d' (draw n') with
            | none => rfl
            | some v => exact ih (dictInsert acc n' v) htail

/-- When no event is named `"Day"`, the day tag planted at the start of
the record survives the sampling loop. -/
theorem genDayGo_lookup_Day (stats : List (String × EventStats))
    (draw : String → ℚ) :
    ∀ (evsL : List (String × EventDef)) (acc r : Rec),
      "Day" ∉ evsL.map Prod.fst →
      genDayGo stats draw evsL acc = some r →
      lookupS r "Day" = lookupS acc "Day" := by
  intro evsL
  induction evsL with
  | nil =>
      intro acc r _ h
      simp only [genDayGo] at h
      injection h with h
      subst h
      rfl
  | cons p rest ih =>
      intro acc r hDay h
      obtain ⟨n, d⟩ := p
      simp only [List.map_cons, List.mem_cons] at hDay
      push_neg at hDay
      simp only [genDayGo] at h
      cases hl : lookupS stats n with
      | none =>
          rw [hl] at h
          exact ih acc r hDay.2 h
      | some s =>
          rw [hl] at h
          cases hse : sampleEvent d (draw n) with
          | none => rw [hse] at h; exact absurd h (by simp)
          | some v =>
              rw [hse] at h
              rw [ih (dictInsert acc n v) r hDay.2 h,
                lookupS_dictInsert_ne acc n v "Day" hDay.1]

/-- Structure of a successful run of the day loop: one record and one
write per day index, records tagged with their day, file names derived
from the day index. -/
theorem genDays_spec (evs : List (String × EventDef))
    (stats : List (String × EventStats)) (draw : ℕ → String → ℚ)
    (hDay : "Day" ∉ evs.map Prod.fst) :
    ∀ (ds : List ℕ) (rs : List Rec) (ws : List (String × Rec)),
      genDays evs stats draw ds = some (rs, ws) →
      rs.map (fun r => lookupS r "Day")
          = ds.map (fun d => some ((d + 1 : ℕ) : ℚ))
        ∧ ws.map Prod.fst = ds.map (fun d => logName (d + 1))
        ∧ ws.map Prod.snd = rs := by
  intro ds
  induction ds with
  | nil =>
      intro rs ws h
      simp only [genDays] at h
      injection h with h
      injection h with h1 h2
      subst h1
      subst h2
      simp
  | cons d rest ih =>
      intro rs ws h
      simp only [genDays] at h
      cases hgd : genDay evs stats d (draw d) with
      | none => rw [hgd] at h; exact absurd h (by simp)
      | some r =>
          rw [hgd] at h
          cases hrec : genDays evs stats draw rest with
          | none => rw [hrec] at h; exact absurd h (by simp)
          | some p =>
              obtain ⟨rs', ws'⟩ := p
              rw [hrec] at h
              injection h with h
              injection h with h1 h2
              subst h1
              subst h2
              obtain ⟨ih1, ih2, ih3⟩ := ih rs' ws' hrec
              have hr : lookupS r "Day" = some ((d + 1 : ℕ) : ℚ) := by
                have := genDayGo_lookup_Day stats (draw d) evs
                  [("Day", ((d + 1 : ℕ) : ℚ))] r hDay hgd
                rw [this]
                simp [lookupS]
              simp [ih1, ih2, ih3, hr, logName]

/-! ### Concrete evaluation helpers -/

/-- `round(5.0, 2) = 5.0`. -/
theorem round2_five : round2 (5 : ℚ) = 5 := by norm_num [round2, rhe]

/-- The clamped-then-rounded continuous sample of the `C1` scenario. -/
theorem sampleEvent_c5 : sampleEvent ⟨"C", 0, Mx.fin 10, 1⟩ 5 = some 5 := by
  norm_num [sampleEvent, minQM, round2_five, max_def, min_def]

/-- Rounding `0.001` to two decimals yields `0.0`. -/
theorem sampleEvent_milli :
    sampleEvent ⟨"C", 1/1000, Mx.fin (1/1000), 1⟩ 5 = some 0 := by
  norm_num [sampleEvent, minQM, round2, rhe, max_def, min_def,
    Int.floor_eq_iff]

/-- The file name of day 1. -/
theorem logName_one : logName 1 = "day_1.log" := by decide

/-- The truncated-and-clamped discrete sample of the `C4` witness. -/
theorem sampleEvent_d7 : sampleEvent ⟨"D", 0, Mx.fin 10, 1⟩ 7 = some 7 := by
  norm_num [sampleEvent, discreteSample, intMx, pyInt, max_def, min_def,
    String.reduceEq]
  intro h
  exact absurd h (by decide)

/-- `math.sqrt(4.0) = 2.0`. -/
theorem sqrt_four : Real.sqrt 4 = 2 := by
  rw [show (4:ℝ) = 2^2 by norm_num, Real.sqrt_sq]
  norm_num

/-! ## The claims -/

/-- C1, counterexample: a continuous event with declared bounds
`[0.001, 0.001]` stores the value `0.0` for the raw draw `5`, because the
clamped sample is rounded to 2 decimal places after clamping; `0.0` is
below the declared lower bound, refuting
`min <= v <= max` for every stored value. -/
theorem C1_counterexample :
    generate_events [("A", ⟨"C", 1/1000, Mx.fin (1/1000), 1⟩)]
        [("A", ⟨5, 1⟩)] 1 (fun _ _ => 5) none
      = some ([[("Day", 1), ("A", 0)]],
          [("day_1.log", [("Day", 1), ("A", 0)])],
          some [("day_1.log", [("Day", 1), ("A", 0)])])
      ∧ ¬ ((1/1000 : ℚ) ≤ 0) := by
  constructor
  · have h : sampleEvent ⟨"C", 1/1000, Mx.fin (1/1000), 1⟩ 5 = some 0 :=
      sampleEvent_milli
    simp only [generate_events, List.range_succ, List.range_zero, genDays,
      genDay, genDayGo, lookupS, dictInsert, logName_one, h,
      String.reduceEq, reduceIte, Nat.reduceAdd, Nat.cast_one,
      Nat.cast_ofNat, List.nil_append, List.foldl, Option.getD]
  · norm_num

/-- C1 (amended): for every event with declared finite bounds
`min <= max` and every raw draw, a discrete stored value lies in the
truncated integer range `[int(min), int(max)]`, and a continuous stored
value is the 2-decimal rounding of a value in `[min, max]`, hence lies in
`[min - 0.005, max + 0.005]`; the declared range itself can be left by
the final rounding (see the counterexample). -/
theorem C1_bounds (d : EventDef) (draw M v : ℚ)
    (hmax : d.max = Mx.fin M) (hmm : d.min ≤ M)
    (hv : sampleEvent d draw = some v) :
    (d.type = "C" →
      d.min - 1/200 ≤ v ∧ v ≤ M + 1/200
        ∧ ∃ c, d.min ≤ c ∧ c ≤ M ∧ v = round2 c)
      ∧ (d.type ≠ "C" →
      ((pyInt d.min : ℤ) : ℚ) ≤ v ∧ v ≤ ((pyInt M : ℤ) : ℚ)) := by
  constructor
  · intro hty
    rw [sampleEvent, if_pos hty, hmax] at hv
    simp only [minQM] at hv
    injection hv with hv
    set c := max d.min (min draw M) with hc
    have h1 : d.min ≤ c := le_max_left _ _
    have h2 : c ≤ M := max_le hmm (min_le_right _ _)
    obtain ⟨hb1, hb2⟩ := round2_bounds c
    exact ⟨by linarith, by linarith, c, h1, h2, hv.symm⟩
  · intro hty
    rw [sampleEvent, if_neg hty, hmax] at hv
    simp only [discreteSample, intMx, Option.map_some] at hv
    injection hv with hv
    have hv' : v = ((max (pyInt d.min) (min (pyInt draw) (pyInt M)) : ℤ) : ℚ) :=
      hv.symm
    have h1 : pyInt d.min ≤ max (pyInt d.min) (min (pyInt draw) (pyInt M)) :=
      le_max_left _ _
    have h2 : max (pyInt d.min) (min (pyInt draw) (pyInt M)) ≤ pyInt M :=
      max_le (pyInt_mono hmm) (min_le_right _ _)
    constructor
    · rw [hv']
      exact_mod_cast h1
    · rw [hv']
      exact_mod_cast h2

/-- C1 (amended), witness at a discrete event with bounds `[0, 10]` and
raw draw `7`. -/
theorem C1_bounds_witness :
    (("D" : String) = "C" →
      (0 : ℚ) - 1/200 ≤ 7 ∧ (7 : ℚ) ≤ 10 + 1/200
        ∧ ∃ c, (0 : ℚ) ≤ c ∧ c ≤ 10 ∧ (7 : ℚ) = round2 c)
      ∧ (("D" : String) ≠ "C" →
      ((pyInt (0 : ℚ) : ℤ) : ℚ) ≤ 7 ∧ (7 : ℚ) ≤ ((pyInt (10 : ℚ) : ℤ) : ℚ)) :=
  C1_bounds ⟨"D", 0, Mx.fin 10, 1⟩ 7 10 7 rfl (by norm_num) (by decide)

/-- C5, counterexample: with ten persisted day files, Python's string
sort processes `day_10.log` immediately after `day_1.log` and before
`day_2.log`, so records are not read in ascending day order. -/
theorem C5_counterexample :
    processOrder ["day_1.log", "day_2.log", "day_3.log", "day_4.log",
        "day_5.log", "day_6.log", "day_7.log", "day_8.log", "day_9.log",
        "day_10.log"]
      = ["day_1.log", "day_10.log", "day_2.log", "day_3.log", "day_4.log",
        "day_5.log", "day_6.log", "day_7.log", "day_8.log", "day_9.log"]
      ∧ List.indexOf "day_10.log"
          ["day_1.log", "day_10.log", "day_2.log", "day_3.log", "day_4.log",
            "day_5.log", "day_6.log", "day_7.log", "day_8.log", "day_9.log"]
        < List.indexOf "day_2.log"
          ["day_1.log", "day_10.log", "day_2.log", "day_3.log", "day_4.log",
            "day_5.log", "day_6.log", "day_7.log", "day_8.log", "day_9.log"] := by
  constructor
  · decide
  · decide

/-- C5 (amended): the aggregator processes the discovered day records
sorted lexicographically by file name (Python string order), which is a
permutation of the matching directory entries; this coincides with
ascending day index only while all day numbers have the same number of
digits. -/
theorem C5_lex_order (files : List String) :
    isSortedB (processOrder files) = true
      ∧ (processOrder files).Perm (files.filter fun f => isDayFile f) :=
  ⟨isSortedB_sortFiles _, sortFiles_perm _⟩

/-- C6, counterexample: for `min = -2.5`, `max = 10` and raw draw `-100`,
the code clamps to `int(-2.5) = -2` (truncation toward zero), while the
claim's floor conversion would give `-3`. -/
theorem C6_counterexample :
    discreteSample (-5/2) (Mx.fin 10) (-100) = some (-2)
      ∧ discreteFloorSpec (-5/2) 10 (-100) = -3
      ∧ ((-2 : ℤ) ≠ -3) := by
  have h1 : ⌈(-(5/2) : ℚ)⌉ = -2 := by
    rw [Int.ceil_eq_iff]
    norm_num
  have h2 : ⌈(-100 : ℚ)⌉ = -100 := by
    rw [Int.ceil_eq_iff]
    norm_num
  have h3 : ⌊(-(5/2) : ℚ)⌋ = -3 := by
    rw [Int.floor_eq_iff]
    norm_num
  refine ⟨?_, ?_, by decide⟩
  · norm_num [discreteSample, intMx, pyInt, h1, h2, max_def, min_def]
  · rw [discreteFloorSpec, ← pyInt_eq_truncZ]
    norm_num [pyInt, clampZ, h2, h3, max_def, min_def]

/-- C6 (amended): the discrete sample is the raw draw truncated toward
zero, clamped into `[trunc(min), trunc(max)]` where the bounds are also
converted by truncation toward zero (Python `int()`), not by floor; the
two conversions agree exactly on nonnegative bounds. -/
theorem C6_trunc_clamp (mn mx draw : ℚ) :
    discreteSample mn (Mx.fin mx) draw
        = some (clampZ (truncZ mn) (truncZ mx) (truncZ draw))
      ∧ (0 ≤ mn → truncZ mn = ⌊mn⌋)
      ∧ (0 ≤ mx → truncZ mx = ⌊mx⌋) := by
  refine ⟨?_, fun h => truncZ_eq_floor_of_nonneg h,
    fun h => truncZ_eq_floor_of_nonneg h⟩
  simp [discreteSample, intMx, clampZ, pyInt_eq_truncZ]

/-- C6 (amended), witness at `min = 0`, `max = 10`, draw `-7`. -/
theorem C6_trunc_clamp_witness :
    discreteSample 0 (Mx.fin 10) (-7)
        = some (clampZ (truncZ 0) (truncZ 10) (truncZ (-7)))
      ∧ truncZ (0 : ℚ) = ⌊(0 : ℚ)⌋ :=
  ⟨(C6_trunc_clamp 0 10 (-7)).1, (C6_trunc_clamp 0 10 (-7)).2.1 (by norm_num)⟩

/-- C7: a config record line with the wrong colon-separated arity is
skipped with a diagnostic and parsing continues, for both parsers; the
spec's concrete scenario (count line `3`, one record with only 4 fields)
yields a 2-entry definitions map and the one diagnostic, not a fatal
error. -/
theorem C7_malformed :
    (∀ (st : List (String × EventDef) × List String) (line : String),
      (splitColon (pyStrip line)).length ≠ 5 →
      processEventLine st line = some (st.1, st.2 ++ [evMsg line]))
      ∧ (∀ (st : List (String × EventStats) × List String) (line : String),
      (splitColon (pyStrip line)).length ≠ 4 →
      processStatLine st line = some (st.1, st.2 ++ [stMsg line]))
      ∧ read_events [] ["3", "Logins:C:0:10:1", "Bad:D:1:4", "Errors:D:0:5:2"]
        = some ([("Logins", ⟨"C", 0, Mx.fin 10, 1⟩),
                 ("Errors", ⟨"D", 0, Mx.fin 5, 2⟩)],
                ["Skipping invalid line in Events.txt: Bad:D:1:4"]) := by
  refine ⟨?_, ?_, by decide⟩
  · intro st line h
    simp [processEventLine, h]
  · intro st line h
    simp [processStatLine, h]

/-- C7, witness: a 2-field line is skipped by both parsers with the
diagnostic recorded. -/
theorem C7_malformed_witness :
    processEventLine ([], []) "a:b" = some ([], [evMsg "a:b"])
      ∧ processStatLine ([], []) "a:b" = some ([], [stMsg "a:b"]) :=
  ⟨C7_malformed.1 ([], []) "a:b" (by decide),
   C7_malformed.2.1 ([], []) "a:b" (by decide)⟩

/-- C8, counterexample: aggregating over a nonexistent storage namespace
raises (`os.listdir` fails), it does not return an empty baseline map. -/
theorem C8_counterexample :
    analyze_stats [("A", ⟨"C", 0, Mx.fin 10, 1⟩)] none = none
      ∧ (none : Option (List (String × Baseline)))
        ≠ some ([] : List (String × Baseline)) := by
  exact ⟨rfl, by decide⟩

/-- C8 (amended): `days = 0` yields an empty record sequence and no
writes, while the storage namespace itself is created (so it exists
afterwards even when it did not before); aggregation over an existing
empty namespace returns the empty baseline map without error. A
nonexistent namespace makes the aggregator raise (see the
counterexample), but the generator always creates it first. -/
theorem C8_zero_days :
    (∀ (evs : List (String × EventDef)) (stats : List (String × EventStats))
      (draw : ℕ → String → ℚ) (fs : Storage),
      generate_events evs stats 0 draw fs = some ([], [], some (fs.getD [])))
      ∧ (∀ evs : List (String × EventDef),
      analyze_stats evs (some []) = some []) := by
  constructor
  · intro evs stats draw fs
    rfl
  · intro evs
    show some (mkBaseline (dailyTotals evs [])) = some []
    have : dailyTotals evs [] = evs.map fun p => (p.1, ([] : List ℚ)) := rfl
    rw [this, mkBaseline_all_empty]

/-- C2: for every event name that accumulated at least one value, the
baseline reports `total` = the exact sum, `mean` = sum/count rounded to 2
decimals, `variance` computed with divisor = count (population), and a
reported `std_dev` = the rounded square root of that variance; events
with no accumulated values are omitted. On the spec's example values
`[2, 4, 4, 4, 5, 5, 7, 9]` the full pipeline reports `total = 40`,
`mean = 5.0`, `std_dev = 2.0`. -/
theorem C2_aggregation :
    (∀ (evs : List (String × EventDef)) (entries : List (String × Rec))
        (out : List (String × Baseline)) (name : String) (vs : List ℚ),
      (evs.map Prod.fst).Nodup →
      analyze_stats evs (some entries) = some out →
      lookupS (dailyTotals evs entries) name = some vs →
      (vs ≠ [] →
        lookupS out name = some (statsOf vs)
          ∧ (statsOf vs).total = vs.sum
          ∧ (statsOf vs).mean = round2 (vs.sum / (vs.length : ℚ))
          ∧ (statsOf vs).variance = specPopVariance vs
          ∧ Baseline.std_dev (statsOf vs)
              = round2R (Real.sqrt (specPopVariance vs)))
        ∧ (vs = [] → lookupS out name = none))
      ∧ analyze_stats [("X", ⟨"D", 0, Mx.fin 100, 1⟩)]
          (some [("day_1.log", [("Day", 1), ("X", 2)]),
                 ("day_2.log", [("Day", 2), ("X", 4)]),
                 ("day_3.log", [("Day", 3), ("X", 4)]),
                 ("day_4.log", [("Day", 4), ("X", 4)]),
                 ("day_5.log", [("Day", 5), ("X", 5)]),
                 ("day_6.log", [("Day", 6), ("X", 5)]),
                 ("day_7.log", [("Day", 7), ("X", 7)]),
                 ("day_8.log", [("Day", 8), ("X", 9)])])
        = some [("X", ⟨40, 5, 4⟩)]
      ∧ Baseline.std_dev ⟨40, 5, 4⟩ = 2 := by
  refine ⟨?_, ?_, ?_⟩
  · intro evs entries out name vs hnd hout hvs
    have hout' : out = mkBaseline (dailyTotals evs entries) := by
      simp only [analyze_stats] at hout
      injection hout with hout
      exact hout.symm
    have hnd' : ((dailyTotals evs entries).map Prod.fst).Nodup := by
      rw [map_fst_dailyTotals]
      exact hnd
    have hlk := lookupS_mkBaseline (dailyTotals evs entries) name vs hnd' hvs
    constructor
    · intro hne
      have hemp : vs.isEmpty = false := by
        cases vs with
        | nil => exact absurd rfl hne
        | cons a l => rfl
      rw [hout', hlk, hemp]
      exact ⟨rfl, rfl, rfl, rfl, rfl⟩
    · intro he
      subst he
      rw [hout', hlk]
      rfl
  · have hdt :
        dailyTotals [("X", ⟨"D", 0, Mx.fin 100, 1⟩)]
          [("day_1.log", [("Day", 1), ("X", 2)]),
           ("day_2.log", [("Day", 2), ("X", 4)]),
           ("day_3.log", [("Day", 3), ("X", 4)]),
           ("day_4.log", [("Day", 4), ("X", 4)]),
           ("day_5.log", [("Day", 5), ("X", 5)]),
           ("day_6.log", [("Day", 6), ("X", 5)]),
           ("day_7.log", [("Day", 7), ("X", 7)]),
           ("day_8.log", [("Day", 8), ("X", 9)])]
        = [("X", [2, 4, 4, 4, 5, 5, 7, 9])] := by decide
    rw [analyze_stats, hdt]
    norm_num [mkBaseline, statsOf, round2_five, List.filterMap_cons,
      List.filterMap_nil]
    decide
  · norm_num [Baseline.std_dev, round2R, rheR, sqrt_four]

/-- C2, witness: the general clause applied to the example scenario. -/
theorem C2_aggregation_witness :
    lookupS
        (mkBaseline (dailyTotals [("X", ⟨"D", 0, Mx.fin 100, 1⟩)]
          [("day_1.log", [("Day", 1), ("X", 2)]),
           ("day_2.log", [("Day", 2), ("X", 4)]),
           ("day_3.log", [("Day", 3), ("X", 4)]),
           ("day_4.log", [("Day", 4), ("X", 4)]),
           ("day_5.log", [("Day", 5), ("X", 5)]),
           ("day_6.log", [("Day", 6), ("X", 5)]),
           ("day_7.log", [("Day", 7), ("X", 7)]),
           ("day_8.log", [("Day", 8), ("X", 9)])])) "X"
      = some (statsOf [2, 4, 4, 4, 5, 5, 7, 9]) :=
  ((C2_aggregation.1 [("X", ⟨"D", 0, Mx.fin 100, 1⟩)]
      [("day_1.log", [("Day", 1), ("X", 2)]),
       ("day_2.log", [("Day", 2), ("X", 4)]),
       ("day_3.log", [("Day", 3), ("X", 4)]),
       ("day_4.log", [("Day", 4), ("X", 4)]),
       ("day_5.log", [("Day", 5), ("X", 5)]),
       ("day_6.log", [("Day", 6), ("X", 5)]),
       ("day_7.log", [("Day", 7), ("X", 7)]),
       ("day_8.log", [("Day", 8), ("X", 9)])]
      _ "X" [2, 4, 4, 4, 5, 5, 7, 9]
      (by decide) rfl (by decide)).1 (by decide)).1

/-- C3, counterexample: over the same persisted records, running the
aggregator with an empty in-memory `events` map yields an empty baseline,
while running it with `events` containing `"A"` yields a baseline for
`"A"` — the aggregation is not independent of the in-memory definitions. -/
theorem C3_counterexample :
    analyze_stats [] (some [("day_1.log", [("Day", 1), ("A", 5)])])
        = some []
      ∧ analyze_stats [("A", ⟨"C", 0, Mx.fin 10, 1⟩)]
          (some [("day_1.log", [("Day", 1), ("A", 5)])])
        = some [("A", ⟨5, 5, 0⟩)]
      ∧ (some ([] : List (String × Baseline))
          ≠ some [("A", (⟨5, 5, 0⟩ : Baseline))]) := by
  refine ⟨by decide, ?_, by decide⟩
  have hdt :
      dailyTotals [("A", ⟨"C", 0, Mx.fin 10, 1⟩)]
        [("day_1.log", [("Day", 1), ("A", 5)])] = [("A", [5])] := by decide
  rw [analyze_stats, hdt]
  norm_num [mkBaseline, statsOf, round2_five, List.filterMap_cons,
    List.filterMap_nil]

/-- C3 (amended): the aggregation never reads the in-memory statistics
map at all, and depends on the in-memory `events` map only through its
key list: two runs whose definitions maps have the same keys produce
identical baselines over the same storage. -/
theorem C3_keys_only (e₁ e₂ : List (String × EventDef)) (fs : Storage)
    (h : e₁.map Prod.fst = e₂.map Prod.fst) :
    analyze_stats e₁ fs = analyze_stats e₂ fs := by
  cases fs with
  | none => rfl
  | some entries =>
      simp only [analyze_stats]
      rw [dailyTotals_congr_keys e₁ e₂ entries h]

/-- C3 (amended), witness: two different definitions for the same key. -/
theorem C3_keys_only_witness :
    analyze_stats [("A", ⟨"C", 0, Mx.fin 10, 1⟩)]
        (some [("day_1.log", [("Day", 1), ("A", 5)])])
      = analyze_stats [("A", ⟨"D", 3, Mx.inf, 7⟩)]
        (some [("day_1.log", [("Day", 1), ("A", 5)])]) :=
  C3_keys_only [("A", ⟨"C", 0, Mx.fin 10, 1⟩)] [("A", ⟨"D", 3, Mx.inf, 7⟩)]
    (some [("day_1.log", [("Day", 1), ("A", 5)])]) (by decide)

/-- C4, counterexample: with an event literally named `"Day"`, the
sampled value overwrites the record's day tag, so the first record's
`Day` field is the sampled `5.0`, not the day index `1`. -/
theorem C4_counterexample :
    generate_events [("Day", ⟨"C", 0, Mx.fin 10, 1⟩)] [("Day", ⟨5, 1⟩)] 1
        (fun _ _ => 5) none
      = some ([[("Day", 5)]], [("day_1.log", [("Day", 5)])],
          some [("day_1.log", [("Day", 5)])])
      ∧ lookupS [("Day", (5 : ℚ))] "Day" ≠ some ((1 : ℕ) : ℚ) := by
  constructor
  · simp only [generate_events, List.range_succ, List.range_zero, genDays,
      genDay, genDayGo, lookupS, dictInsert, logName_one, sampleEvent_c5,
      String.reduceEq, reduceIte, Nat.reduceAdd, Nat.cast_one,
      List.nil_append, List.foldl, Option.getD]
  · decide

/-- C4 (amended): provided no event is named `"Day"`, a successful run
over `D` days returns exactly `D` records whose `Day` fields are
`1 .. D` in ascending order, and performs exactly `D` writes, one per
day, to the file name derived from the day index, each holding that
day's record. -/
theorem C4_shape (evs : List (String × EventDef))
    (stats : List (String × EventStats)) (draw : ℕ → String → ℚ)
    (D : ℕ) (fs : Storage) (rs : List Rec) (ws : List (String × Rec))
    (st : Storage)
    (hDay : "Day" ∉ evs.map Prod.fst)
    (h : generate_events evs stats D draw fs = some (rs, ws, st)) :
    rs.length = D
      ∧ rs.map (fun r => lookupS r "Day")
          = (List.range D).map (fun i => some ((i + 1 : ℕ) : ℚ))
      ∧ ws.map Prod.fst = (List.range D).map (fun i => logName (i + 1))
      ∧ ws.map Prod.snd = rs := by
  unfold generate_events at h
  cases hg : genDays evs stats draw (List.range D) with
  | none =>
      rw [hg] at h
      exact absurd h (by simp)
  | some p =>
      obtain ⟨rs', ws'⟩ := p
      rw [hg] at h
      simp only [Option.some.injEq, Prod.mk.injEq] at h
      obtain ⟨h1, h2, _⟩ := h
      rw [h1, h2] at hg
      obtain ⟨hd, hw, hrs⟩ := genDays_spec evs stats draw hDay
        (List.range D) rs ws hg
      refine ⟨?_, hd, hw, hrs⟩
      have := congrArg List.length hd
      simpa using this

/-- C4 (amended), witness: one day, one discrete event. -/
theorem C4_shape_witness :
    ([[("Day", 1), ("A", 7)]] : List Rec).length = 1
      ∧ ([[("Day", 1), ("A", 7)]] : List Rec).map
            (fun r => lookupS r "Day")
          = (List.range 1).map (fun i => some ((i + 1 : ℕ) : ℚ))
      ∧ ([("day_1.log", [("Day", 1), ("A", 7)])]
            : List (String × Rec)).map Prod.fst
          = (List.range 1).map (fun i => logName (i + 1))
      ∧ ([("day_1.log", [("Day", 1), ("A", 7)])]
            : List (String × Rec)).map Prod.snd
          = [[("Day", 1), ("A", 7)]] :=
  C4_shape [("A", ⟨"D", 0, Mx.fin 10, 1⟩)] [("A", ⟨5, 1⟩)]
    (fun _ _ => 7) 1 none [[("Day", 1), ("A", 7)]]
    [("day_1.log", [("Day", 1), ("A", 7)])]
    (some [("day_1.log", [("Day", 1), ("A", 7)])])
    (by decide)
    (by simp only [generate_events, List.range_succ, List.range_zero,
      genDays, genDay, genDayGo, lookupS, dictInsert, logName_one,
      sampleEvent_d7, String.reduceEq, reduceIte, Nat.reduceAdd,
      Nat.cast_one, List.nil_append, List.foldl, Option.getD])

/-- C9: an empty `max` field parses to `float("inf")`, and if the
sampling join contains a discrete event with that infinite upper bound,
then for every positive number of days the generator raises
(`int(float("inf"))` fails) instead of producing an unbounded value. -/
theorem C9_infinite_discrete :
    processEventLine ([], []) "Logins:D:0::2"
        = some ([("Logins", ⟨"D", 0, Mx.inf, 2⟩)], [])
      ∧ ∀ (evs : List (String × EventDef))
          (stats : List (String × EventStats)) (draw : ℕ → String → ℚ)
          (days : ℕ) (fs : Storage) (name : String) (d : EventDef)
          (s : EventStats),
          (name, d) ∈ evs → d.type ≠ "C" → d.max = Mx.inf →
          lookupS stats name = some s → 1 ≤ days →
          generate_events evs stats days draw fs = none := by
  constructor
  · decide
  · intro evs stats draw days fs name d s hmem hC hinf hs hdays
    obtain ⟨k, rfl⟩ : ∃ k, days = k + 1 := ⟨days - 1, by omega⟩
    have h0 : genDay evs stats 0 (draw 0) = none :=
      genDayGo_none stats (draw 0) name d s hC hinf hs evs _ hmem
    simp [generate_events, List.range_succ_eq_map, genDays, h0]

/-- C9, witness: one discrete event with an empty max field's default
bound, present in both maps, one day. -/
theorem C9_infinite_discrete_witness :
    generate_events [("Logins", ⟨"D", 0, Mx.inf, 2⟩)]
        [("Logins", ⟨4, 1⟩)] 1 (fun _ _ => 0) none = none :=
  C9_infinite_discrete.2 [("Logins", ⟨"D", 0, Mx.inf, 2⟩)]
    [("Logins", ⟨4, 1⟩)] (fun _ _ => 0) 1 none "Logins"
    ⟨"D", 0, Mx.inf, 2⟩ ⟨4, 1⟩ (by decide) (by decide) rfl (by decide)
    (by decide)

/-- C10: the parsers accumulate into the passed-in (module-global) map:
a later valid record for the same name silently overwrites the earlier
one (no diagnostic), and a second call merges into the result of the
first instead of starting fresh; for both parsers. -/
theorem C10_global_accumulation :
    (∀ (α : Type) (m : List (String × α)) (n : String) (v : α),
      lookupS (dictInsert m n v) n = some v)
      ∧ (∀ (α : Type) (m : List (String × α)) (n : String) (v : α)
          (n' : String), n' ≠ n →
      lookupS (dictInsert m n v) n' = lookupS m n')
      ∧ read_events [] ["2", "A:C:0:10:1", "A:D:1:5:2"]
        = some ([("A", ⟨"D", 1, Mx.fin 5, 2⟩)], [])
      ∧ read_events [("A", ⟨"D", 1, Mx.fin 5, 2⟩)] ["1", "B:C:0:9:3"]
        = some ([("A", ⟨"D", 1, Mx.fin 5, 2⟩),
                 ("B", ⟨"C", 0, Mx.fin 9, 3⟩)], [])
      ∧ read_statistics [] ["2", "A:1:2:", "A:3:4:"]
        = some ([("A", ⟨3, 4⟩)], []) :=
  ⟨fun _ m n v => lookupS_dictInsert_self m n v,
   fun _ m n v n' h => lookupS_dictInsert_ne m n v n' h,
   by decide, by decide, by decide⟩

/-- C10, witness: overwriting key `"A"` leaves key `"B"`'s lookup
unchanged. -/
theorem C10_global_accumulation_witness :
    lookupS (dictInsert [("A", (1 : ℚ))] "A" 2) "B"
      = lookupS [("A", (1 : ℚ))] "B" :=
  C10_global_accumulation.2.1 ℚ [("A", 1)] "A" 2 "B" (by decide)

end IDS
